import Mathlib

/-!
Verification of `pyyoutube/utils/params_checker.py` (python-youtube).

This file gives a shallow embedding of the four validation helpers
`comma_separated_validator`, `parts_validator`, `incompatible_validator`,
`enf_comma_separated` and `enf_parts`, together with theorems settling the
claims about their behaviour.

Python values relevant to these functions are embedded as the inductive
type `PyVal` (None, str, int as a representative of any non-accepted type,
list, tuple, set).  A Python set is represented by the list of its elements
in iteration order, which is arbitrary; statements about sets are made for
every iteration order.  `str.split(",")` is embedded as `splitComma` and
`",".join(...)` as `joinComma`, both defined character by character with
Python's semantics (splitting the empty string yields one empty token).
Functions that can raise are embedded with `Except`; the exception type
distinguishes the library's own `PyYouTubeException` (carrying an
`ErrorMessage`) from an uncaught built-in `TypeError` (as raised by
`",".join` on non-string elements, or by `set(...)` on unhashable
elements).
-/

set_option autoImplicit false

namespace ParamsChecker

/-- Modelled from the spec: `pyyoutube.error.ErrorCode` (the module
`pyyoutube/error.py` is not under `src/`).  The spec's error taxonomy has
exactly the two kinds used by this component. -/
inductive ErrorCode where
  | INVALID_PARAMS
  | MISSING_PARAMS
deriving DecidableEq, Repr

/-- Modelled from the spec: `pyyoutube.error.ErrorMessage` (the module
`pyyoutube/error.py` is not under `src/`).  A structured error carrying an
error kind and a human-readable message, the payload of every
`PyYouTubeException` raised by the validators. -/
structure ErrorMessage where
  status_code : ErrorCode
  message : String
deriving DecidableEq, Repr

/-- The exceptions observable from `enf_parts`: either the library's own
`PyYouTubeException` carrying an `ErrorMessage`, or an uncaught Python
`TypeError` (e.g. from `",".join` applied to non-string elements). -/
inductive PyErr where
  | api (e : ErrorMessage)
  | typeError
deriving DecidableEq, Repr

instance {ε α : Type} [DecidableEq ε] [DecidableEq α] : DecidableEq (Except ε α) :=
  fun a b =>
    match a, b with
    | .ok x, .ok y =>
      if h : x = y then isTrue (by rw [h]) else isFalse (fun hh => h (Except.ok.inj hh))
    | .error x, .error y =>
      if h : x = y then isTrue (by rw [h]) else isFalse (fun hh => h (Except.error.inj hh))
    | .ok _, .error _ => isFalse (fun hh => Except.noConfusion hh)
    | .error _, .ok _ => isFalse (fun hh => Except.noConfusion hh)

/-- Embedding of the Python values these validators dispatch on:
`None`, `str`, `list`, `tuple`, `set` (the list being the set's iteration
order), and `int` as a representative of every other type. -/
inductive PyVal where
  | vNone
  | vStr (s : String)
  | vInt (n : Int)
  | vList (xs : List PyVal)
  | vTuple (xs : List PyVal)
  | vSet (xs : List PyVal)

mutual

/-- Structural (Python `==`) equality test on embedded values. -/
def PyVal.beq : PyVal → PyVal → Bool
  | .vNone, .vNone => true
  | .vStr s, .vStr t => s == t
  | .vInt m, .vInt n => m == n
  | .vList xs, .vList ys => PyVal.beqL xs ys
  | .vTuple xs, .vTuple ys => PyVal.beqL xs ys
  | .vSet xs, .vSet ys => PyVal.beqL xs ys
  | _, _ => false

/-- Elementwise equality test on lists of embedded values. -/
def PyVal.beqL : List PyVal → List PyVal → Bool
  | [], [] => true
  | x :: xs, y :: ys => PyVal.beq x y && PyVal.beqL xs ys
  | _, _ => false

end

mutual

theorem PyVal.beq_iff : ∀ a b : PyVal, PyVal.beq a b = true ↔ a = b
  | .vNone, b => by cases b <;> simp [PyVal.beq]
  | .vStr s, b => by cases b <;> simp [PyVal.beq]
  | .vInt n, b => by cases b <;> simp [PyVal.beq]
  | .vList xs, b => by
    cases b <;> simp [PyVal.beq]
    exact PyVal.beqL_iff xs _
  | .vTuple xs, b => by
    cases b <;> simp [PyVal.beq]
    exact PyVal.beqL_iff xs _
  | .vSet xs, b => by
    cases b <;> simp [PyVal.beq]
    exact PyVal.beqL_iff xs _

theorem PyVal.beqL_iff : ∀ xs ys : List PyVal, PyVal.beqL xs ys = true ↔ xs = ys
  | [], [] => by simp [PyVal.beqL]
  | [], _ :: _ => by simp [PyVal.beqL]
  | _ :: _, [] => by simp [PyVal.beqL]
  | x :: xs, y :: ys => by
    simp [PyVal.beqL, PyVal.beq_iff x y, PyVal.beqL_iff xs ys]

end

instance : DecidableEq PyVal :=
  fun a b => decidable_of_iff _ (PyVal.beq_iff a b)

/-- Whether a value is Python's `None`. -/
def PyVal.isNone : PyVal → Bool
  | .vNone => true
  | _ => false

/-- Character-level worker for Python's `str.split(",")`: cut the character
list at every comma.  Splitting the empty list yields one empty token, as in
Python. -/
def splitCh : List Char → List (List Char)
  | [] => [[]]
  | c :: cs =>
    if c = ',' then [] :: splitCh cs
    else
      match splitCh cs with
      | [] => [[c]]
      | t :: ts => (c :: t) :: ts

/-- Embedding of Python's `s.split(",")`. -/
def splitComma (s : String) : List String :=
  (splitCh s.toList).map String.mk

/-- Character-level worker for Python's `",".join`: interleave a comma
between consecutive tokens. -/
def joinCh : List (List Char) → List Char
  | [] => []
  | [x] => x
  | x :: xs => x ++ ',' :: joinCh xs

/-- Embedding of Python's `",".join(tokens)` for string tokens. -/
def joinComma (ss : List String) : String :=
  String.mk (joinCh (ss.map String.toList))

/-- The string values of a list of `PyVal`, if every element is a string;
`none` records that Python's `",".join` would raise `TypeError` on this
list. -/
def strsOf : List PyVal → Option (List String)
  | [] => some []
  | .vStr s :: rest => (strsOf rest).map (s :: ·)
  | _ => none

mutual

/-- Whether a value is hashable in Python (lists and sets are not; a tuple
is hashable when all its components are). `set(...)` raises `TypeError` on
unhashable elements. -/
def hashablePy : PyVal → Bool
  | .vList _ => false
  | .vSet _ => false
  | .vTuple xs => hashableL xs
  | _ => true

/-- Whether every element of a list is hashable. -/
def hashableL : List PyVal → Bool
  | [] => true
  | x :: xs => hashablePy x && hashableL xs

end

/-- Embedding of Python's `set(xs)` on the element list of a collection:
`TypeError` on unhashable elements, otherwise the elements with duplicates
removed (the iteration order of the resulting set is arbitrary in Python;
we fix the canonical order produced by `List.dedup`). -/
def pySetOf (xs : List PyVal) : Except PyErr (List PyVal) :=
  if hashableL xs then .ok xs.dedup else .error .typeError

/-- Membership of a `PyVal` in a Python set of strings: only a string can
be a member. -/
def isStrIn (support : List String) : PyVal → Bool
  | .vStr s => support.contains s
  | _ => false

/-- Embedding of `",".join(xs)` on arbitrary elements: `TypeError` unless
every element is a string. -/
def joinPyE (xs : List PyVal) : Except PyErr String :=
  match strsOf xs with
  | some ss => .ok (joinComma ss)
  | none => .error .typeError

/-- The message raised by `enf_comma_separated` for a value of the wrong
type or a failed join. -/
def commaTypeMsg (field : String) : ErrorMessage :=
  ⟨.INVALID_PARAMS,
    "Parameter (" ++ field ++ ") must be single str,comma-separated str,list,tuple or set"⟩

/-- The message raised by `enf_parts` for a value of the wrong type. -/
def partsTypeMsg : ErrorMessage :=
  ⟨.INVALID_PARAMS,
    "Parameter (parts) must be single str,comma-separated str,list,tuple or set"⟩

/-- The message raised by `enf_parts` for unsupported parts. -/
def partsNotSupportMsg (resource notSupport : String) : ErrorMessage :=
  ⟨.INVALID_PARAMS,
    "Parts " ++ notSupport ++ " for resource " ++ resource ++ " not support"⟩

/-- The message raised by `parts_validator` for unsupported parts. -/
def partValidatorMsg (resource notSupport : String) : ErrorMessage :=
  ⟨.INVALID_PARAMS,
    "Part " ++ notSupport ++ " for resource " ++ resource ++ " not support"⟩

/-- The message raised by `comma_separated_validator` for a value without
`.split`. -/
def commaSepMsg (name : String) : ErrorMessage :=
  ⟨.INVALID_PARAMS, "Parameter " ++ name ++ " must be str or comma-separated list str"⟩

/-- Modelled from the spec: the permitted-parts lookup table
`RESOURCE_PARTS_MAPPING` (from `pyyoutube/utils/constants.py`, which is not
under `src/`).  The spec treats its data as an external static mapping from
resource name to a set of permitted part tokens; its testable properties
give that resource `"video"` permits the parts `"id"` and `"snippet"`.
A permitted set is represented by the list of its elements in iteration
order.  The theorems below are stated for an arbitrary mapping `M` wherever
possible, so nothing depends on this concrete instance beyond the spec's
examples. -/
def RESOURCE_PARTS_MAPPING : String → List String :=
  fun resource => if resource = "video" then ["id", "snippet"] else []

/-- Embedding of `comma_separated_validator(**kwargs)`: keyword arguments
in order, values embedded as `PyVal`.  For every present (non-`None`)
value, `param.split(",")` is attempted; only strings have `.split`, any
other value raises `AttributeError`, turned into a `PyYouTubeException`. -/
def comma_separated_validator : List (String × PyVal) → Except ErrorMessage Unit
  | [] => .ok ()
  | (name, param) :: rest =>
    match param with
    | .vNone => comma_separated_validator rest
    | .vStr _ => comma_separated_validator rest
    | _ => .error (commaSepMsg name)

/-- Embedding of `parts_validator(resource, parts)` over an arbitrary
permitted-parts mapping `M`.  `None` succeeds trivially; otherwise the
string is split on commas into a set and checked against
`M resource`. -/
def parts_validator (M : String → List String) (resource : String)
    (parts : Option String) : Except ErrorMessage Unit :=
  match parts with
  | none => .ok ()
  | some p =>
    let support_parts := M resource
    let req := (splitComma p).dedup
    if req.all support_parts.contains then .ok ()
    else
      .error (partValidatorMsg resource
        (joinComma (req.filter (fun t => !support_parts.contains t))))

/-- Embedding of `incompatible_validator(**kwargs)`: count the present
(non-`None`) values; zero raises `MISSING_PARAMS`, more than one raises
`INVALID_PARAMS`, exactly one succeeds. -/
def incompatible_validator (kwargs : List (String × PyVal)) : Except ErrorMessage Unit :=
  let given := (kwargs.filter (fun p => !p.2.isNone)).length
  let params := joinComma (kwargs.map Prod.fst)
  if given = 0 then
    .error ⟨.MISSING_PARAMS, "Specify at least one of " ++ params⟩
  else if given > 1 then
    .error ⟨.INVALID_PARAMS, "Incompatible parameters specified for " ++ params⟩
  else .ok ()

/-- Embedding of `enf_comma_separated(field, value)`.  The second component
records whether the warning about unreliable set order was logged.  All
raised exceptions are `PyYouTubeException`s: the `TypeError` of a failed
join is caught and replaced by `commaTypeMsg field`. -/
def enf_comma_separated (field : String) (value : PyVal) :
    Except ErrorMessage (Option String) × Bool :=
  match value with
  | .vNone => (.ok none, false)
  | .vStr s => (.ok (some s), false)
  | .vList xs =>
    (match strsOf xs with
     | some ss => .ok (some (joinComma ss))
     | none => .error (commaTypeMsg field), false)
  | .vTuple xs =>
    (match strsOf xs with
     | some ss => .ok (some (joinComma ss))
     | none => .error (commaTypeMsg field), false)
  | .vSet xs =>
    (match strsOf xs with
     | some ss => .ok (some (joinComma ss))
     | none => .error (commaTypeMsg field), true)
  | _ => (.error (commaTypeMsg field), false)

/-- Embedding of `enf_parts(resource, value)` over an arbitrary
permitted-parts mapping `M`.  `None` resolves to the full permitted set,
a string is split on commas into a set, a collection is converted to a set,
any other type raises `INVALID_PARAMS`; the resolved set is then checked
against `M resource` and re-joined.  There is no `try/except` here, so the
`TypeError` of `set(...)` on unhashable elements or of `",".join` on
non-string elements propagates uncaught. -/
def enf_parts (M : String → List String) (resource : String) (value : PyVal) :
    Except PyErr String :=
  let resolved : Except PyErr (List PyVal) :=
    match value with
    | .vNone => .ok ((M resource).map PyVal.vStr)
    | .vStr s => .ok (((splitComma s).dedup).map PyVal.vStr)
    | .vList xs => pySetOf xs
    | .vTuple xs => pySetOf xs
    | .vSet xs => pySetOf xs
    | _ => .error (.api partsTypeMsg)
  match resolved with
  | .error e => .error e
  | .ok parts =>
    let support := M resource
    if parts.all (isStrIn support) then joinPyE parts
    else
      match joinPyE (parts.filter (fun v => !isStrIn support v)) with
      | .ok ns => .error (.api (partsNotSupportMsg resource ns))
      | .error e => .error e

/-! ### Helper lemmas about the string and value operations -/

theorem splitCh_ne_nil (l : List Char) : splitCh l ≠ [] := by
  induction l with
  | nil => simp [splitCh]
  | cons c cs ih =>
    by_cases hc : c = ','
    · simp [splitCh, hc]
    · simp only [splitCh, if_neg hc]
      cases h : splitCh cs with
      | nil => simp
      | cons t ts => simp

theorem splitCh_no_comma {l : List Char} (h : ',' ∉ l) : splitCh l = [l] := by
  induction l with
  | nil => rfl
  | cons c cs ih =>
    have hc : c ≠ ',' := fun hh => h (hh ▸ List.mem_cons_self c cs)
    have hcs : ',' ∉ cs := fun hh => h (List.mem_cons_of_mem c hh)
    simp only [splitCh, if_neg hc, ih hcs]

theorem splitCh_append {l₁ : List Char} (l₂ : List Char) (h : ',' ∉ l₁) :
    splitCh (l₁ ++ ',' :: l₂) = l₁ :: splitCh l₂ := by
  induction l₁ with
  | nil => simp [splitCh]
  | cons c cs ih =>
    have hc : c ≠ ',' := fun hh => h (hh ▸ List.mem_cons_self c cs)
    have hcs : ',' ∉ cs := fun hh => h (List.mem_cons_of_mem c hh)
    rw [List.cons_append]
    simp only [splitCh, if_neg hc]
    rw [ih hcs]

theorem splitCh_joinCh {ps : List (List Char)} (hne : ps ≠ [])
    (hcf : ∀ p ∈ ps, ',' ∉ p) : splitCh (joinCh ps) = ps := by
  induction ps with
  | nil => exact absurd rfl hne
  | cons p ps ih =>
    cases ps with
    | nil => exact splitCh_no_comma (hcf p (List.mem_cons_self p []))
    | cons q qs =>
      have hp : ',' ∉ p := hcf p (List.mem_cons_self p _)
      have hrest : ∀ r ∈ q :: qs, ',' ∉ r :=
        fun r hr => hcf r (List.mem_cons_of_mem p hr)
      have : joinCh (p :: q :: qs) = p ++ ',' :: joinCh (q :: qs) := rfl
      rw [this, splitCh_append _ hp, ih (by simp) hrest]

theorem toList_joinComma (ss : List String) :
    (joinComma ss).toList = joinCh (ss.map String.toList) := rfl

theorem splitComma_joinComma {ss : List String} (hne : ss ≠ [])
    (hcf : ∀ s ∈ ss, ',' ∉ s.toList) : splitComma (joinComma ss) = ss := by
  unfold splitComma
  rw [toList_joinComma, splitCh_joinCh (by simpa using hne)
    (by intro p hp; rcases List.mem_map.1 hp with ⟨s, hs, rfl⟩; exact hcf s hs)]
  rw [List.map_map]
  have : (String.mk ∘ String.toList) = id := by
    funext s; rfl
  rw [this, List.map_id]

theorem joinComma_nil : joinComma [] = "" := rfl

theorem strsOf_map_vStr (ss : List String) : strsOf (ss.map PyVal.vStr) = some ss := by
  induction ss with
  | nil => rfl
  | cons s rest ih => simp [strsOf, ih]

theorem strsOf_eq_some {xs : List PyVal} {ss : List String}
    (h : strsOf xs = some ss) : xs = ss.map PyVal.vStr := by
  induction xs generalizing ss with
  | nil => simp [strsOf] at h; simp [← h]
  | cons x rest ih =>
    cases x with
    | vStr s =>
      simp only [strsOf, Option.map_eq_some'] at h
      rcases h with ⟨ts, hts, rfl⟩
      simp [ih hts]
    | vNone => simp [strsOf] at h
    | vInt n => simp [strsOf] at h
    | vList l => simp [strsOf] at h
    | vTuple l => simp [strsOf] at h
    | vSet l => simp [strsOf] at h

theorem vStr_injective : Function.Injective PyVal.vStr :=
  fun _ _ h => PyVal.vStr.inj h

theorem dedup_map_vStr (ss : List String) :
    (ss.map PyVal.vStr).dedup = ss.dedup.map PyVal.vStr :=
  List.dedup_map_of_injective vStr_injective ss

theorem hashableL_map_vStr (ss : List String) : hashableL (ss.map PyVal.vStr) = true := by
  induction ss with
  | nil => rfl
  | cons s rest ih => simp [hashableL, hashablePy, ih]

theorem pySetOf_map_vStr (ss : List String) :
    pySetOf (ss.map PyVal.vStr) = .ok (ss.dedup.map PyVal.vStr) := by
  simp [pySetOf, hashableL_map_vStr, dedup_map_vStr]

theorem isStrIn_vStr (support : List String) (s : String) :
    isStrIn support (PyVal.vStr s) = support.contains s := rfl

theorem all_isStrIn_map (support : List String) (ss : List String) :
    (ss.map PyVal.vStr).all (isStrIn support) = ss.all support.contains := by
  induction ss with
  | nil => rfl
  | cons s rest ih => simp [List.all_cons, isStrIn, ih]

theorem filter_isStrIn_map (support : List String) (ss : List String) :
    (ss.map PyVal.vStr).filter (fun v => !isStrIn support v) =
      (ss.filter (fun t => !support.contains t)).map PyVal.vStr := by
  induction ss with
  | nil => rfl
  | cons s rest ih =>
    by_cases h : s ∈ support <;>
      simpa [List.filter_cons, isStrIn, h] using ih

theorem joinPyE_map_vStr (ss : List String) :
    joinPyE (ss.map PyVal.vStr) = .ok (joinComma ss) := by
  simp [joinPyE, strsOf_map_vStr]

theorem contains_iff_mem {l : List String} {a : String} : l.contains a = true ↔ a ∈ l :=
  List.elem_iff

theorem all_contains_self (l : List String) : l.all l.contains = true := by
  rw [List.all_eq_true]
  intro x hx
  exact contains_iff_mem.2 hx

theorem all_isStrIn_elim {support : List String} {parts : List PyVal}
    (h : parts.all (isStrIn support) = true) :
    ∃ ps : List String, parts = ps.map PyVal.vStr ∧ ∀ p ∈ ps, p ∈ support := by
  induction parts with
  | nil => exact ⟨[], rfl, by simp⟩
  | cons x rest ih =>
    rw [List.all_cons, Bool.and_eq_true] at h
    obtain ⟨ps, hmap, hmem⟩ := ih h.2
    cases x with
    | vStr s =>
      refine ⟨s :: ps, by simp [hmap], ?_⟩
      intro p hp
      rcases List.mem_cons.1 hp with rfl | hp2
      · exact contains_iff_mem.1 (by simpa [isStrIn] using h.1)
      · exact hmem p hp2
    | vNone => simp [isStrIn] at h
    | vInt n => simp [isStrIn] at h
    | vList l => simp [isStrIn] at h
    | vTuple l => simp [isStrIn] at h
    | vSet l => simp [isStrIn] at h

theorem enf_parts_check (M : String → List String) (r : String) (req : List String) :
    (if (req.map PyVal.vStr).all (isStrIn (M r)) then joinPyE (req.map PyVal.vStr)
     else
       match joinPyE ((req.map PyVal.vStr).filter (fun v => !isStrIn (M r) v)) with
       | .ok ns => .error (.api (partsNotSupportMsg r ns))
       | .error e => .error e) =
    (if req.all (M r).contains then (.ok (joinComma req) : Except PyErr String)
     else .error (.api (partsNotSupportMsg r
       (joinComma (req.filter (fun t => !(M r).contains t)))))) := by
  rw [all_isStrIn_map]
  cases h : req.all (M r).contains with
  | true => simp only [h, if_true, joinPyE_map_vStr]
  | false =>
    simp only [h, Bool.false_eq_true, if_false, filter_isStrIn_map, joinPyE_map_vStr]

theorem enf_parts_body_ok {M : String → List String} {r : String}
    {parts : List PyVal} {s : String}
    (h : (if parts.all (isStrIn (M r)) then joinPyE parts
          else
            match joinPyE (parts.filter (fun v => !isStrIn (M r) v)) with
            | .ok ns => .error (.api (partsNotSupportMsg r ns))
            | .error e => .error e) = Except.ok s) :
    ∃ ps : List String, s = joinComma ps ∧ ∀ p ∈ ps, p ∈ M r := by
  cases hall : parts.all (isStrIn (M r)) with
  | false =>
    rw [hall] at h
    simp only [Bool.false_eq_true, if_false] at h
    cases hj : joinPyE (parts.filter (fun v => !isStrIn (M r) v)) <;>
      rw [hj] at h <;> exact absurd h (by simp)
  | true =>
    rw [hall, if_pos rfl] at h
    obtain ⟨ps, rfl, hmem⟩ := all_isStrIn_elim hall
    rw [joinPyE_map_vStr] at h
    exact ⟨ps, (Except.ok.inj h).symm, hmem⟩

theorem enf_parts_ok_elim {M : String → List String} {r : String} {v : PyVal} {s : String}
    (hok : enf_parts M r v = .ok s) :
    ∃ ps : List String, s = joinComma ps ∧ ∀ p ∈ ps, p ∈ M r := by
  cases v with
  | vNone => exact enf_parts_body_ok hok
  | vStr t => exact enf_parts_body_ok hok
  | vInt n => exact absurd hok (by simp [enf_parts])
  | vList xs =>
    simp only [enf_parts, pySetOf] at hok
    cases hh : hashableL xs with
    | false => rw [hh] at hok; exact absurd hok (by simp)
    | true => rw [hh, if_pos rfl] at hok; exact enf_parts_body_ok hok
  | vTuple xs =>
    simp only [enf_parts, pySetOf] at hok
    cases hh : hashableL xs with
    | false => rw [hh] at hok; exact absurd hok (by simp)
    | true => rw [hh, if_pos rfl] at hok; exact enf_parts_body_ok hok
  | vSet xs =>
    simp only [enf_parts, pySetOf] at hok
    cases hh : hashableL xs with
    | false => rw [hh] at hok; exact absurd hok (by simp)
    | true => rw [hh, if_pos rfl] at hok; exact enf_parts_body_ok hok

/-! ### Claim theorems -/

/-- C1: `enf_comma_separated` returns `None` when the value is `None`,
returns a string value unchanged, joins a list or tuple into a single
comma-separated string preserving element order, and for a value of any
other type — or when the join fails on non-string elements — raises an
`INVALID_PARAMS` exception whose message names the field and the accepted
types. -/
theorem c1_enf_comma_separated_correct (field : String) :
    ((enf_comma_separated field .vNone).1 = .ok none) ∧
    (∀ s, (enf_comma_separated field (.vStr s)).1 = .ok (some s)) ∧
    (∀ ss : List String,
      (enf_comma_separated field (.vList (ss.map .vStr))).1 = .ok (some (joinComma ss)) ∧
      (enf_comma_separated field (.vTuple (ss.map .vStr))).1 = .ok (some (joinComma ss))) ∧
    (∀ xs : List PyVal, strsOf xs = none →
      (enf_comma_separated field (.vList xs)).1 = .error (commaTypeMsg field) ∧
      (enf_comma_separated field (.vTuple xs)).1 = .error (commaTypeMsg field)) ∧
    (∀ n : Int, (enf_comma_separated field (.vInt n)).1 = .error (commaTypeMsg field)) ∧
    ((commaTypeMsg field).status_code = .INVALID_PARAMS) ∧
    ((commaTypeMsg field).message =
      "Parameter (" ++ field ++ ") must be single str,comma-separated str,list,tuple or set") := by
  refine ⟨rfl, fun s => rfl, fun ss => ⟨?_, ?_⟩, fun xs h => ⟨?_, ?_⟩, fun n => rfl, rfl, rfl⟩
  · simp [enf_comma_separated, strsOf_map_vStr]
  · simp [enf_comma_separated, strsOf_map_vStr]
  · simp [enf_comma_separated, h]
  · simp [enf_comma_separated, h]

/-- C1 witness: concrete instances of the claim at field `"ids"`. -/
theorem c1_witness :
    strsOf [PyVal.vInt 7] = none ∧
    (enf_comma_separated "ids" (.vList [.vInt 7])).1 = .error (commaTypeMsg "ids") ∧
    (enf_comma_separated "ids" (.vList [.vStr "a", .vStr "b", .vStr "c"])).1 =
      .ok (some "a,b,c") := by
  refine ⟨rfl, ((c1_enf_comma_separated_correct "ids").2.2.2.1 [.vInt 7] rfl).1, ?_⟩
  have h := ((c1_enf_comma_separated_correct "ids").2.2.1 ["a", "b", "c"]).1
  rw [show [PyVal.vStr "a", PyVal.vStr "b", PyVal.vStr "c"] =
      (["a", "b", "c"].map PyVal.vStr) from rfl, h]
  decide

/-- C3: `incompatible_validator` raises `MISSING_PARAMS` listing all
parameter names (comma-joined, input order) when no value is present,
raises `INVALID_PARAMS` listing all parameter names when more than one
value is present, and succeeds silently when exactly one value is
present. -/
theorem c3_incompatible_validator_correct (kwargs : List (String × PyVal)) :
    ((kwargs.filter (fun p => !p.2.isNone)).length = 0 →
      incompatible_validator kwargs =
        .error ⟨.MISSING_PARAMS,
          "Specify at least one of " ++ joinComma (kwargs.map Prod.fst)⟩) ∧
    ((kwargs.filter (fun p => !p.2.isNone)).length > 1 →
      incompatible_validator kwargs =
        .error ⟨.INVALID_PARAMS,
          "Incompatible parameters specified for " ++ joinComma (kwargs.map Prod.fst)⟩) ∧
    ((kwargs.filter (fun p => !p.2.isNone)).length = 1 →
      incompatible_validator kwargs = .ok ()) := by
  refine ⟨fun h => ?_, fun h => ?_, fun h => ?_⟩
  · simp only [incompatible_validator]
    rw [if_pos h]
  · simp only [incompatible_validator]
    rw [if_neg (by omega), if_pos h]
  · simp only [incompatible_validator]
    rw [if_neg (by omega), if_neg (by omega)]

/-- C3 witness: the three cardinalities at concrete inputs. -/
theorem c3_witness :
    incompatible_validator [("a", .vNone), ("b", .vNone)] =
      .error ⟨.MISSING_PARAMS, "Specify at least one of " ++ joinComma ["a", "b"]⟩ ∧
    incompatible_validator [("a", .vStr "x"), ("b", .vStr "y")] =
      .error ⟨.INVALID_PARAMS, "Incompatible parameters specified for " ++ joinComma ["a", "b"]⟩ ∧
    incompatible_validator [("a", .vStr "x"), ("b", .vNone)] = .ok () :=
  ⟨(c3_incompatible_validator_correct [("a", .vNone), ("b", .vNone)]).1 (by decide),
   (c3_incompatible_validator_correct [("a", .vStr "x"), ("b", .vStr "y")]).2.1 (by decide),
   (c3_incompatible_validator_correct [("a", .vStr "x"), ("b", .vNone)]).2.2 (by decide)⟩

/-- C6: on a mapping whose present (non-null) values are all strings,
`comma_separated_validator` raises no exception and returns nothing. -/
theorem c6_comma_separated_validator_ok (kwargs : List (String × PyVal))
    (h : ∀ p ∈ kwargs, p.2 = PyVal.vNone ∨ ∃ s, p.2 = PyVal.vStr s) :
    comma_separated_validator kwargs = .ok () := by
  induction kwargs with
  | nil => rfl
  | cons q rest ih =>
    obtain ⟨name, v⟩ := q
    have ihr := ih (fun p hp => h p (List.mem_cons_of_mem _ hp))
    rcases h _ (List.mem_cons_self _ _) with hv | ⟨s, hv⟩ <;>
      simp only at hv <;> subst hv <;> exact ihr

/-- C6 witness: a concrete mapping with one string and one null value. -/
theorem c6_witness :
    comma_separated_validator [("id", .vStr "a,b"), ("name", .vNone)] = .ok () :=
  c6_comma_separated_validator_ok [("id", .vStr "a,b"), ("name", .vNone)] (by
    intro p hp
    rcases List.mem_cons.1 hp with rfl | hp2
    · exact Or.inr ⟨"a,b", rfl⟩
    · rcases List.mem_cons.1 hp2 with rfl | hp3
      · exact Or.inl rfl
      · cases hp3)

/-- C8: `enf_comma_separated` is idempotent on its own output: whenever it
returns a non-null string, applying it again to that string returns the
identical string. -/
theorem c8_enf_comma_separated_idempotent (field : String) (value : PyVal) (s : String)
    (_h : (enf_comma_separated field value).1 = .ok (some s)) :
    (enf_comma_separated field (.vStr s)).1 = .ok (some s) := rfl

/-- C8 witness: the normalized output of a list re-validates to itself. -/
theorem c8_witness :
    (enf_comma_separated "ids" (.vList [.vStr "a", .vStr "b"])).1 = .ok (some "a,b") ∧
    (enf_comma_separated "ids" (.vStr "a,b")).1 = .ok (some "a,b") :=
  ⟨by decide,
   c8_enf_comma_separated_idempotent "ids" (.vList [.vStr "a", .vStr "b"]) "a,b" (by decide)⟩

/-- C9: on a set of strings (given by its iteration order), for every
iteration order `enf_comma_separated` returns the comma-joined string of
exactly the set's elements in that order and records the warning-level log
line, raising no exception. -/
theorem c9_enf_comma_separated_set (field : String) (ss : List String) :
    enf_comma_separated field (.vSet (ss.map .vStr)) = (.ok (some (joinComma ss)), true) := by
  simp [enf_comma_separated, strsOf_map_vStr]

/-- C10: `enf_parts` on an empty list, tuple or set returns the empty
string; only the null value resolves to the full permitted-parts
default. -/
theorem c10_enf_parts_empty_collection (M : String → List String) (resource : String) :
    enf_parts M resource (.vList []) = .ok "" ∧
    enf_parts M resource (.vTuple []) = .ok "" ∧
    enf_parts M resource (.vSet []) = .ok "" ∧
    enf_parts M resource .vNone = .ok (joinComma (M resource)) := by
  refine ⟨rfl, rfl, rfl, ?_⟩
  show (if ((M resource).map PyVal.vStr).all (isStrIn (M resource))
        then joinPyE ((M resource).map PyVal.vStr)
        else
          match joinPyE (((M resource).map PyVal.vStr).filter
              (fun v => !isStrIn (M resource) v)) with
          | .ok ns => .error (.api (partsNotSupportMsg resource ns))
          | .error e => .error e) = .ok (joinComma (M resource))
  rw [all_isStrIn_map, all_contains_self, if_pos rfl, joinPyE_map_vStr]

/-- C4: `parts_validator` succeeds trivially on a null parts value;
otherwise it splits the string on commas into a set and succeeds when every
requested part is permitted, and raises `INVALID_PARAMS` naming every
requested part not in the permitted set (comma-joined, set-difference
order) and the resource exactly when the permitted set is not a superset of
the requested set; it returns no value. -/
theorem c4_parts_validator_correct (M : String → List String) (resource : String) :
    (parts_validator M resource none = .ok ()) ∧
    (∀ p, (∀ t ∈ (splitComma p).dedup, t ∈ M resource) →
      parts_validator M resource (some p) = .ok ()) ∧
    (∀ p, ¬ (∀ t ∈ (splitComma p).dedup, t ∈ M resource) →
      parts_validator M resource (some p) =
        .error (partValidatorMsg resource
          (joinComma (((splitComma p).dedup).filter (fun t => !(M resource).contains t))))) ∧
    (∀ r ns, (partValidatorMsg r ns).status_code = .INVALID_PARAMS ∧
      (partValidatorMsg r ns).message = "Part " ++ ns ++ " for resource " ++ r ++ " not support") := by
  refine ⟨rfl, fun p h => ?_, fun p h => ?_, fun r ns => ⟨rfl, rfl⟩⟩
  · have hb : ((splitComma p).dedup).all (M resource).contains = true := by
      rw [List.all_eq_true]
      intro t ht
      exact contains_iff_mem.2 (h t ht)
    simp only [parts_validator]
    rw [if_pos hb]
  · have hb : ¬ ((splitComma p).dedup).all (M resource).contains = true := by
      intro hall
      exact h (fun t ht => contains_iff_mem.1 ((List.all_eq_true.1 hall) t ht))
    simp only [parts_validator]
    rw [if_neg hb]

/-- C4 witness: a valid and an invalid parts string for resource
`"video"`. -/
theorem c4_witness :
    parts_validator RESOURCE_PARTS_MAPPING "video" (some "id,snippet") = .ok () ∧
    parts_validator RESOURCE_PARTS_MAPPING "video" (some "id,bogus") =
      .error (partValidatorMsg "video" "bogus") := by
  constructor
  · exact (c4_parts_validator_correct RESOURCE_PARTS_MAPPING "video").2.1 "id,snippet" (by decide)
  · have h := (c4_parts_validator_correct RESOURCE_PARTS_MAPPING "video").2.2.1 "id,bogus"
      (by decide)
    rw [h]
    decide

/-- C5 counterexample: with two offending keyword arguments, the single
raised exception names only the first one; the message for the call
`comma_separated_validator(a=0, zz=0)` does not contain the parameter name
`"zz"`, refuting the claim's guarantee for every offending parameter. -/
theorem c5_counterexample :
    comma_separated_validator [("a", .vInt 0), ("zz", .vInt 0)] = .error (commaSepMsg "a") ∧
    (commaSepMsg "a").message = "Parameter a must be str or comma-separated list str" ∧
    ¬ ("zz".toList <:+: (commaSepMsg "a").message.toList) := by
  refine ⟨by decide, rfl, by decide⟩

/-- C5 (amended): for the first parameter, in input order, whose present
value does not support splitting on commas, `comma_separated_validator`
raises an `INVALID_PARAMS` exception whose message contains that
parameter's name and states it must be a string or comma-separated-list
string. -/
theorem c5_comma_separated_validator_first_bad
    (pre : List (String × PyVal)) (name : String) (v : PyVal)
    (post : List (String × PyVal))
    (hpre : ∀ p ∈ pre, p.2 = PyVal.vNone ∨ ∃ s, p.2 = PyVal.vStr s)
    (hv1 : v ≠ PyVal.vNone) (hv2 : ∀ s, v ≠ PyVal.vStr s) :
    comma_separated_validator (pre ++ (name, v) :: post) = .error (commaSepMsg name) ∧
    (commaSepMsg name).status_code = .INVALID_PARAMS ∧
    (commaSepMsg name).message =
      "Parameter " ++ name ++ " must be str or comma-separated list str" := by
  refine ⟨?_, rfl, rfl⟩
  induction pre with
  | nil =>
    cases v with
    | vNone => exact absurd rfl hv1
    | vStr s => exact absurd rfl (hv2 s)
    | vInt n => rfl
    | vList xs => rfl
    | vTuple xs => rfl
    | vSet xs => rfl
  | cons q rest ih =>
    obtain ⟨qn, qv⟩ := q
    have ihr := ih (fun p hp => hpre p (List.mem_cons_of_mem _ hp))
    rcases hpre _ (List.mem_cons_self _ _) with hq | ⟨s, hq⟩ <;>
      simp only at hq <;> subst hq <;> exact ihr

/-- C5 witness: a single offending parameter after a well-formed one is
named in the raised message. -/
theorem c5_witness :
    comma_separated_validator [("a", .vStr "x"), ("b", .vInt 3)] = .error (commaSepMsg "b") :=
  (c5_comma_separated_validator_first_bad [("a", .vStr "x")] "b" (.vInt 3) []
    (by
      intro p hp
      rcases List.mem_cons.1 hp with rfl | hp2
      · exact Or.inr ⟨"x", rfl⟩
      · cases hp2)
    (by intro hh; cases hh) (by intro s hh; cases hh)).1

/-- C2 counterexample: a list with a non-string element resolves to a set
that is not a subset of the permitted parts, yet `enf_parts` does not raise
an `INVALID_PARAMS` exception naming the unsupported parts: the
`",".join` over the set difference raises an uncaught `TypeError`
instead. -/
theorem c2_counterexample :
    enf_parts RESOURCE_PARTS_MAPPING "video" (.vList [.vInt 1]) = .error .typeError := by
  decide

/-- C2 (amended): for a null value `enf_parts` returns the full permitted
set joined by commas; a string value is split on commas into a set; a
list, tuple or set whose elements are all strings is converted to a set;
any other type raises `INVALID_PARAMS`; and, for those inputs, the
resolved set is re-joined and returned when it is a subset of the permitted
set, and otherwise an `INVALID_PARAMS` exception naming every unsupported
part and the resource is raised.  (For collections with non-string
elements, the claim fails: the join of the set difference raises an
uncaught `TypeError`.) -/
theorem c2_enf_parts_amended (M : String → List String) (resource : String) :
    (enf_parts M resource .vNone = .ok (joinComma (M resource))) ∧
    (∀ n : Int, enf_parts M resource (.vInt n) = .error (.api partsTypeMsg)) ∧
    (partsTypeMsg.status_code = .INVALID_PARAMS) ∧
    (∀ s, enf_parts M resource (.vStr s) =
      (if ((splitComma s).dedup).all (M resource).contains
       then .ok (joinComma ((splitComma s).dedup))
       else .error (.api (partsNotSupportMsg resource
         (joinComma (((splitComma s).dedup).filter
           (fun t => !(M resource).contains t))))))) ∧
    (∀ ss : List String,
      enf_parts M resource (.vList (ss.map .vStr)) =
        (if ss.dedup.all (M resource).contains
         then .ok (joinComma ss.dedup)
         else .error (.api (partsNotSupportMsg resource
           (joinComma (ss.dedup.filter (fun t => !(M resource).contains t)))))) ∧
      enf_parts M resource (.vTuple (ss.map .vStr)) =
        (if ss.dedup.all (M resource).contains
         then .ok (joinComma ss.dedup)
         else .error (.api (partsNotSupportMsg resource
           (joinComma (ss.dedup.filter (fun t => !(M resource).contains t)))))) ∧
      enf_parts M resource (.vSet (ss.map .vStr)) =
        (if ss.dedup.all (M resource).contains
         then .ok (joinComma ss.dedup)
         else .error (.api (partsNotSupportMsg resource
           (joinComma (ss.dedup.filter (fun t => !(M resource).contains t))))))) ∧
    (∀ r ns, (partsNotSupportMsg r ns).status_code = .INVALID_PARAMS ∧
      (partsNotSupportMsg r ns).message =
        "Parts " ++ ns ++ " for resource " ++ r ++ " not support") := by
  refine ⟨?_, fun n => rfl, rfl, fun s => ?_, fun ss => ?_, fun r ns => ⟨rfl, rfl⟩⟩
  · show (if ((M resource).map PyVal.vStr).all (isStrIn (M resource))
          then joinPyE ((M resource).map PyVal.vStr)
          else
            match joinPyE (((M resource).map PyVal.vStr).filter
                (fun v => !isStrIn (M resource) v)) with
            | .ok ns => .error (.api (partsNotSupportMsg resource ns))
            | .error e => .error e) = .ok (joinComma (M resource))
    rw [all_isStrIn_map, all_contains_self, if_pos rfl, joinPyE_map_vStr]
  · exact enf_parts_check M resource ((splitComma s).dedup)
  · have hc := enf_parts_check M resource ss.dedup
    refine ⟨?_, ?_, ?_⟩ <;>
      · simp only [enf_parts, pySetOf_map_vStr]
        exact hc

/-- C2 witness: the spec's concrete examples for resource `"video"`. -/
theorem c2_witness :
    enf_parts RESOURCE_PARTS_MAPPING "video" .vNone = .ok "id,snippet" ∧
    enf_parts RESOURCE_PARTS_MAPPING "video" (.vStr "id,bogus") =
      .error (.api (partsNotSupportMsg "video" "bogus")) := by
  constructor
  · have h := (c2_enf_parts_amended RESOURCE_PARTS_MAPPING "video").1
    rw [h]
    decide
  · have h := (c2_enf_parts_amended RESOURCE_PARTS_MAPPING "video").2.2.2.1 "id,bogus"
    rw [h]
    decide

/-- C7 counterexample: the empty list is an accepted value on which
`enf_parts` returns the empty string without raising, but the returned
string split on commas yields the single token `""`, which is not in the
permitted-parts set of resource `"video"`. -/
theorem c7_counterexample :
    enf_parts RESOURCE_PARTS_MAPPING "video" (.vList []) = .ok "" ∧
    splitComma "" = [""] ∧
    "" ∉ RESOURCE_PARTS_MAPPING "video" := by
  refine ⟨by decide, by decide, by decide⟩

/-- C7 (amended): whenever `enf_parts` returns a non-empty string without
raising, and the permitted part tokens of the resource contain no comma,
every token of the returned string split on commas lies in the resource's
permitted-parts set.  (On the empty string output — produced by an empty
collection — the split yields the token `""`, which need not be
permitted.) -/
theorem c7_enf_parts_output_subset (M : String → List String) (resource : String)
    (value : PyVal) (s : String)
    (hcf : ∀ t ∈ M resource, ',' ∉ t.toList)
    (hok : enf_parts M resource value = .ok s) (hne : s ≠ "") :
    ∀ t ∈ splitComma s, t ∈ M resource := by
  obtain ⟨ps, rfl, hmem⟩ := enf_parts_ok_elim hok
  have hps : ps ≠ [] := by
    rintro rfl
    exact hne joinComma_nil
  rw [splitComma_joinComma hps (fun p hp => hcf p (hmem p hp))]
  exact hmem

/-- C7 witness: the string `"id,snippet"` is accepted for `"video"` and
each token of the returned string is a permitted part. -/
theorem c7_witness : "id" ∈ RESOURCE_PARTS_MAPPING "video" :=
  c7_enf_parts_output_subset RESOURCE_PARTS_MAPPING "video" (.vStr "id,snippet") "id,snippet"
    (by decide) (by decide) (by decide) "id" (by decide)

end ParamsChecker
